import Mathlib

/-!
Shallow embedding of the `lwc` word-count utility (Rust sources
`src/lwc.rs`, `src/counter.rs`, `src/main.rs`, `src/flag.rs`).

Byte streams are `List Nat` (each element a byte value), Unicode scalar
values are `Nat`.  Fallible filesystem operations are modelled by
`Except`/`Option` fields describing what the OS returns for a given path,
so that `File::count`, `Dir::count`, `fcount`, `dcount` and the drivers
become pure functions of those descriptions.  The `Lwc` namespace embeds
`src/lwc.rs`; the `Cnt` namespace embeds `src/counter.rs` and the driver
loop of `src/main.rs`.
-/

/-- I/O failure kinds produced by the OS for metadata/open/read_dir calls
(`std::io::ErrorKind` values other than `InvalidInput`, which in this code
base is only constructed by `lwc` itself for type mismatches). -/
inductive IOFailure
  | notFound
  | permissionDenied
  | otherIo
deriving DecidableEq, Repr

/-- `std::io::ErrorKind` as observed by the drivers: either the
`InvalidInput` kind that `File::count`/`Dir::count` construct on a type
mismatch, or an OS failure kind. -/
inductive ErrorKind
  | invalidInput
  | os (k : IOFailure)
deriving DecidableEq, Repr

/-- Rust `0x80 ≤ b ≤ 0xBF`: a UTF-8 continuation byte. -/
def isCont (b : Nat) : Bool := 0x80 ≤ b && b ≤ 0xBF

/-- Validity of the two continuation-byte ranges for a 3-byte sequence,
matching Rust's `str` validation table. -/
def utf8Valid3 (b c1 : Nat) : Bool :=
  (b == 0xE0 && 0xA0 ≤ c1 && c1 ≤ 0xBF) ||
  (0xE1 ≤ b && b ≤ 0xEC && isCont c1) ||
  (b == 0xED && 0x80 ≤ c1 && c1 ≤ 0x9F) ||
  (0xEE ≤ b && b ≤ 0xEF && isCont c1)

/-- Validity of the first continuation byte for a 4-byte sequence,
matching Rust's `str` validation table. -/
def utf8Valid4 (b c1 : Nat) : Bool :=
  (b == 0xF0 && 0x90 ≤ c1 && c1 ≤ 0xBF) ||
  (0xF1 ≤ b && b ≤ 0xF3 && isCont c1) ||
  (b == 0xF4 && 0x80 ≤ c1 && c1 ≤ 0x8F)

/-- UTF-8 decoding exactly as Rust's `str::from_utf8` validates and
`str::chars` decodes: `some` of the scalar-value sequence when the bytes
are valid UTF-8, `none` otherwise (overlong forms, surrogates and
out-of-range lead bytes all rejected). -/
def utf8Decode : List Nat → Option (List Nat)
  | [] => some []
  | b :: rest =>
    if b ≤ 0x7F then
      (utf8Decode rest).map (fun cs => b :: cs)
    else if 0xC2 ≤ b && b ≤ 0xDF then
      match rest with
      | [] => none
      | c1 :: rest1 =>
        if isCont c1 then
          (utf8Decode rest1).map (fun cs => ((b - 0xC0) * 64 + (c1 - 0x80)) :: cs)
        else none
    else if 0xE0 ≤ b && b ≤ 0xEF then
      match rest with
      | c1 :: c2 :: rest2 =>
        if utf8Valid3 b c1 && isCont c2 then
          (utf8Decode rest2).map
            (fun cs => ((b - 0xE0) * 4096 + (c1 - 0x80) * 64 + (c2 - 0x80)) :: cs)
        else none
      | _ => none
    else if 0xF0 ≤ b && b ≤ 0xF4 then
      match rest with
      | c1 :: c2 :: c3 :: rest3 =>
        if utf8Valid4 b c1 && isCont c2 && isCont c3 then
          (utf8Decode rest3).map
            (fun cs =>
              ((b - 0xF0) * 262144 + (c1 - 0x80) * 4096 + (c2 - 0x80) * 64 +
                (c3 - 0x80)) :: cs)
        else none
      | _ => none
    else none

/-- Rust `char::is_whitespace`: the Unicode White_Space property, the
splitting predicate of `str::split_whitespace`. -/
def isWhitespace (c : Nat) : Bool :=
  c == 0x09 || c == 0x0A || c == 0x0B || c == 0x0C || c == 0x0D || c == 0x20 ||
  c == 0x85 || c == 0xA0 || c == 0x1680 ||
  (0x2000 ≤ c && c ≤ 0x200A) ||
  c == 0x2028 || c == 0x2029 || c == 0x202F || c == 0x205F || c == 0x3000

/-- Helper for `wordCount`: the flag records whether the previous scalar
was part of a word, so a word is counted at each whitespace-to-non-whitespace
transition. -/
def wordCountAux : Bool → List Nat → Nat
  | _, [] => 0
  | inWord, c :: rest =>
    if isWhitespace c then wordCountAux false rest
    else (if inWord then 0 else 1) + wordCountAux true rest

/-- Rust `line.split_whitespace().count()`: the number of maximal runs of
non-whitespace scalar values. -/
def wordCount (cs : List Nat) : Nat := wordCountAux false cs

/-- The successive `read_line` chunks of a byte stream: the stream split
into lines after each `0x0A` byte, each line keeping its terminating
`0x0A`, the final line possibly unterminated.  `read_line` returning
`Ok(0)` at end of stream corresponds to the list ending, so an empty
stream yields no lines. -/
def splitLines : List Nat → List (List Nat)
  | [] => []
  | b :: rest =>
    if b = 0x0A then [b] :: splitLines rest
    else
      match splitLines rest with
      | [] => [[b]]
      | l :: ls => (b :: l) :: ls

/-- Line/word/char/byte counts, the `FileStat` struct of `src/lwc.rs`
(`src/counter.rs`'s `FileStat` carries the same four counters plus a
`path` string and a never-set `is_binary` flag, both presentation-only). -/
structure FileStat where
  lines : Nat
  words : Nat
  chars : Nat
  bytes : Nat
deriving DecidableEq, Repr

/-- `FileStat::default()`: all four counters zero. -/
def FileStat.zero : FileStat := ⟨0, 0, 0, 0⟩

/-- One iteration of the counting loop shared by `File::count`,
`Stdin::count` and `Counter::fcount`, applied to one decoded line:
`lines += 1; bytes += len; chars += line.chars().count();
words += line.split_whitespace().count()`. -/
def bumpStat (stat : FileStat) (lineBytes : List Nat) (cs : List Nat) : FileStat :=
  ⟨stat.lines + 1, stat.words + wordCount cs, stat.chars + cs.length,
    stat.bytes + lineBytes.length⟩

/-- The `while let Ok(len) = reader.read_line(&mut line)` loop over the
remaining lines: a line that is valid UTF-8 is scored and the loop
continues; on the first invalid line `read_line` returns `Err`, the
`while let` pattern fails, and the loop exits silently with the counts
accumulated so far. -/
def fcountLoop : FileStat → List (List Nat) → FileStat
  | stat, [] => stat
  | stat, l :: rest =>
    match utf8Decode l with
    | none => stat
    | some cs => fcountLoop (bumpStat stat l cs) rest

/-- The full counting loop of `File::count`/`Stdin::count`/`fcount` on a
byte stream, starting from `FileStat::default()`. -/
def countStream (bytes : List Nat) : FileStat :=
  fcountLoop FileStat.zero (splitLines bytes)

/-- A line on which `read_line` succeeds: its bytes are valid UTF-8. -/
def validLine (l : List Nat) : Bool := (utf8Decode l).isSome


/-- View of an `Except` value as a sum, used to derive decidable
equality for the filesystem-description structures below. -/
def exceptToSum : Except ε α → ε ⊕ α
  | .error e => .inl e
  | .ok a => .inr a

instance {ε α : Type} [DecidableEq ε] [DecidableEq α] : DecidableEq (Except ε α) :=
  fun x y =>
    decidable_of_iff (exceptToSum x = exceptToSum y)
      (by cases x <;> cases y <;> simp [exceptToSum])

/-- Result of `FileType` queries on Unix (`cfg(unix)` build): the seven
mutually exclusive file types distinguishable through
`std::fs::FileType`'s `is_dir`/`is_file`/`is_symlink`/`is_block_device`/
`is_char_device`/`is_fifo`/`is_socket` predicates.  A `FileType` obtained
from `symlink_metadata` of a symbolic link is `symlink`; one obtained from
the following `metadata` call is the type of the link's target, never
`symlink`. -/
inductive FileType
  | dir
  | file
  | symlink
  | block
  | charDev
  | fifo
  | socket
deriving DecidableEq, Repr

/-- What `path.metadata()` reports about a regular-file candidate:
`is_file()` of the followed metadata. -/
structure FileMeta where
  isFile : Bool
deriving DecidableEq, Repr

/-- The filesystem's view of one path handed to the content-mode counter:
the result of `metadata()` and the result of `fs::File::open` together
with the bytes the opened handle yields. -/
structure FileEntry where
  meta : Except IOFailure FileMeta
  openRes : Except IOFailure (List Nat)
deriving DecidableEq, Repr

/-- One immediate child of a directory, as the two metadata calls used by
the two implementations see it: `lstatType` is `symlink_metadata()` (does
not follow symlinks), `statType` is `metadata()` (follows symlinks, so it
never reports `symlink` and it fails on a dangling link). -/
structure Child where
  lstatType : Except IOFailure FileType
  statType : Except IOFailure FileType
deriving DecidableEq, Repr

/-- The filesystem's view of one path handed to the structure-mode
counter: `isDirMeta` is `metadata()?.is_dir()`, `children` is the
`read_dir` listing, where a `none` item is a child the directory iterator
itself failed to yield (these are dropped by the `.flatten()` on the
iterator in both implementations). -/
structure DirListing where
  isDirMeta : Except IOFailure Bool
  children : Except IOFailure (List (Option Child))
deriving DecidableEq, Repr

namespace Lwc

/-- The `DirStat` struct of `src/lwc.rs`: Unix buckets plus the two
Windows-only symlink buckets (never incremented in a `cfg(unix)` build). -/
structure DirStat where
  subdirs : Nat
  files : Nat
  symlinks : Nat
  blocks : Nat
  chars : Nat
  fifos : Nat
  sockets : Nat
  symlink_files : Nat
  symlink_dirs : Nat
deriving DecidableEq, Repr

/-- `DirStat::default()`: all buckets zero. -/
def DirStat.zero : DirStat := ⟨0, 0, 0, 0, 0, 0, 0, 0, 0⟩

/-- The sum of all classification buckets of a `DirStat`. -/
def bucketSum (s : DirStat) : Nat :=
  s.subdirs + s.files + s.symlinks + s.blocks + s.chars + s.fifos + s.sockets +
    s.symlink_files + s.symlink_dirs

/-- The `match metadata.file_type()` arms of `Dir::count` in
`src/lwc.rs` (Unix configuration): each resolved type increments exactly
one bucket. -/
def classifyEntry (s : DirStat) : FileType → DirStat
  | .dir => { s with subdirs := s.subdirs + 1 }
  | .file => { s with files := s.files + 1 }
  | .symlink => { s with symlinks := s.symlinks + 1 }
  | .block => { s with blocks := s.blocks + 1 }
  | .charDev => { s with chars := s.chars + 1 }
  | .fifo => { s with fifos := s.fifos + 1 }
  | .socket => { s with sockets := s.sockets + 1 }

/-- `File::count` (`src/lwc.rs` lines 116-143): propagate a `metadata()`
failure, reject a non-regular-file with an `InvalidInput` error, propagate
an `open` failure, then run the counting loop (which itself never fails). -/
def File.count (e : FileEntry) : Except ErrorKind FileStat :=
  match e.meta with
  | .error k => .error (.os k)
  | .ok m =>
    if !m.isFile then .error .invalidInput
    else
      match e.openRes with
      | .error k => .error (.os k)
      | .ok bytes => .ok (countStream bytes)

/-- The `for entry in entries.flatten()` loop of `Dir::count`: iterator
failures (`none`) are skipped by `.flatten()`; a yielded child whose
`symlink_metadata()` fails aborts the whole count via `?`; a resolved
child is classified. -/
def dirCountLoop : DirStat → List (Option Child) → Except ErrorKind DirStat
  | s, [] => .ok s
  | s, none :: rest => dirCountLoop s rest
  | s, some c :: rest =>
    match c.lstatType with
    | .error k => .error (.os k)
    | .ok ft => dirCountLoop (classifyEntry s ft) rest

/-- `Dir::count` (`src/lwc.rs` lines 152-187): propagate a `metadata()`
failure, reject a non-directory with `InvalidInput`, propagate a
`read_dir` failure, then classify the yielded children. -/
def Dir.count (d : DirListing) : Except ErrorKind DirStat :=
  match d.isDirMeta with
  | .error k => .error (.os k)
  | .ok isDir =>
    if !isDir then .error .invalidInput
    else
      match d.children with
      | .error k => .error (.os k)
      | .ok items => dirCountLoop DirStat.zero items

/-- The `Total` struct of `src/lwc.rs`: a file-shaped accumulator, a
dir-shaped accumulator, and the `done` counter of folded entries. -/
structure Total where
  file : FileStat
  dir : DirStat
  done : Nat
deriving DecidableEq, Repr

/-- `Total::new()` = `Total::default()`. -/
def Total.new : Total := ⟨FileStat.zero, DirStat.zero, 0⟩

/-- `Total::update_file` (`src/lwc.rs` lines 240-247): add the file
counters elementwise and bump `done`; the Rust method takes the `File`
wrapper and reads its `stat` field, which is the `FileStat` taken here. -/
def Total.update_file (t : Total) (s : FileStat) : Total :=
  { t with
    file := ⟨t.file.lines + s.lines, t.file.words + s.words,
      t.file.chars + s.chars, t.file.bytes + s.bytes⟩
    done := t.done + 1 }

/-- `Total::update_dir` (`src/lwc.rs` lines 249-259): add the seven Unix
dir counters elementwise (the two Windows symlink buckets are not summed
by the Rust code) and bump `done`. -/
def Total.update_dir (t : Total) (s : DirStat) : Total :=
  { t with
    dir := ⟨t.dir.subdirs + s.subdirs, t.dir.files + s.files,
      t.dir.symlinks + s.symlinks, t.dir.blocks + s.blocks,
      t.dir.chars + s.chars, t.dir.fifos + s.fifos,
      t.dir.sockets + s.sockets, t.dir.symlink_files, t.dir.symlink_dirs⟩
    done := t.done + 1 }

end Lwc

/-- The observable output actions of a driver loop: a per-entry stat line
on stdout, a warning line on stderr, and the final total line on stdout. -/
inductive OutEvent
  | entry
  | warn
  | total
deriving DecidableEq, Repr

namespace Lwc

/-- The `for stat in stats` loop of `Counter::count_file`/`count_dir`
(`src/lwc.rs` lines 392-405), abstracted over the update used: an `Ok`
stat is folded into the total and printed unless quiet; an `InvalidInput`
error prints a warning and continues; any other error aborts the run. -/
def processStats (upd : Total → α → Total) (quiet : Bool) :
    Total → List (Except ErrorKind α) → Except ErrorKind (Total × List OutEvent)
  | t, [] => .ok (t, [])
  | t, .ok s :: rest =>
    match processStats upd quiet (upd t s) rest with
    | .error e => .error e
    | .ok (tf, evs) =>
      .ok (tf, (if quiet then [] else [OutEvent.entry]) ++ evs)
  | t, .error .invalidInput :: rest =>
    match processStats upd quiet t rest with
    | .error e => .error e
    | .ok (tf, evs) => .ok (tf, OutEvent.warn :: evs)
  | _, .error (.os k) :: _ => .error (.os k)

/-- `Counter::count_file` (`src/lwc.rs` lines 376-439) on the already
computed per-entry results (the `par_iter().map(File::count).collect()`
vector): run the loop from a fresh total, then print the total line iff
`total.done() > 1 || (quiet && total.done() > 1)`. -/
def count_file (quiet : Bool) (results : List (Except ErrorKind FileStat)) :
    Except ErrorKind (Total × List OutEvent) :=
  match processStats Total.update_file quiet Total.new results with
  | .error e => .error e
  | .ok (t, evs) =>
    .ok (t, evs ++ if t.done > 1 || (quiet && t.done > 1) then [OutEvent.total] else [])

/-- `Counter::count_dir` (`src/lwc.rs` lines 441-504): the same loop and
total-line guard with `Total::update_dir`. -/
def count_dir (quiet : Bool) (results : List (Except ErrorKind DirStat)) :
    Except ErrorKind (Total × List OutEvent) :=
  match processStats Total.update_dir quiet Total.new results with
  | .error e => .error e
  | .ok (t, evs) =>
    .ok (t, evs ++ if t.done > 1 || (quiet && t.done > 1) then [OutEvent.total] else [])

end Lwc

namespace Cnt

/-- `Counter::fcount` (`src/counter.rs` lines 34-67): open the file
(`ok()?`), read its metadata (`ok()?`), reject a non-regular-file with
`None`, then run the same counting loop; the `path` and `is_binary`
fields of its `FileStat` are presentation-only and omitted here. -/
def fcount (e : FileEntry) : Option FileStat :=
  match e.openRes with
  | .error _ => none
  | .ok bytes =>
    match e.meta with
    | .error _ => none
    | .ok m => if !m.isFile then none else some (countStream bytes)

/-- The `DirStat` struct of `src/counter.rs`: the seven Unix buckets. -/
structure DirStat where
  subdirs : Nat
  files : Nat
  symlinks : Nat
  blocks : Nat
  chars : Nat
  fifos : Nat
  sockets : Nat
deriving DecidableEq, Repr

/-- All-zero `DirStat`, the initializer at `src/counter.rs` lines 82-91. -/
def DirStat.zero : DirStat := ⟨0, 0, 0, 0, 0, 0, 0⟩

/-- The `match metadata.file_type()` arms of `Counter::dcount`
(`src/counter.rs` lines 97-106).  The `metadata()` the caller passes in
follows symlinks, so on a real filesystem the `symlink` arm can never be
reached. -/
def classifyEntry (s : DirStat) : FileType → DirStat
  | .dir => { s with subdirs := s.subdirs + 1 }
  | .file => { s with files := s.files + 1 }
  | .symlink => { s with symlinks := s.symlinks + 1 }
  | .block => { s with blocks := s.blocks + 1 }
  | .charDev => { s with chars := s.chars + 1 }
  | .fifo => { s with fifos := s.fifos + 1 }
  | .socket => { s with sockets := s.sockets + 1 }

/-- The child loop of `Counter::dcount`: iterator failures are skipped by
`.flatten()`; a yielded child whose followed `metadata()` fails makes the
whole `dcount` return `None` via `ok()?`; a resolved child is classified
by its followed (symlink-resolving) type. -/
def dcountLoop : DirStat → List (Option Child) → Option DirStat
  | s, [] => some s
  | s, none :: rest => dcountLoop s rest
  | s, some c :: rest =>
    match c.statType with
    | .error _ => none
    | .ok ft => dcountLoop (classifyEntry s ft) rest

/-- `Counter::dcount` (`src/counter.rs` lines 78-111): `None` if the
path's metadata fails or it is not a directory; if the `read_dir` call
itself fails the `if let Ok` falls through and an all-zero stat is
returned; otherwise classify the yielded children. -/
def dcount (d : DirListing) : Option DirStat :=
  match d.isDirMeta with
  | .error _ => none
  | .ok isDir =>
    if !isDir then none
    else
      match d.children with
      | .error _ => DirStat.zero
      | .ok items => dcountLoop DirStat.zero items

/-- The total accumulator of `src/main.rs` (struct `TotalFileStat`). -/
structure TotalFileStat where
  lines : Nat
  words : Nat
  chars : Nat
  bytes : Nat
deriving DecidableEq, Repr

/-- `TotalFileStat::default()`. -/
def TotalFileStat.zero : TotalFileStat := ⟨0, 0, 0, 0⟩

/-- The `for stat in stats.into_iter().flatten()` loop of `main`
(`src/main.rs` lines 32-40): failed entries (`None` from `fcount`) are
silently dropped; each successful one is printed and summed. -/
def mainFileLoop : TotalFileStat → List (Option FileStat) → TotalFileStat × List OutEvent
  | t, [] => (t, [])
  | t, none :: rest => mainFileLoop t rest
  | t, some s :: rest =>
    let p := mainFileLoop
      ⟨t.lines + s.lines, t.words + s.words, t.chars + s.chars, t.bytes + s.bytes⟩ rest
    (p.1, OutEvent.entry :: p.2)

/-- The content-mode branch of `main` (`src/main.rs` lines 32-42): run the
loop over the `fcounts` results from a fresh total, then print the total
line unconditionally (`println!("{total}")` with no guard). -/
def mainFileRun (stats : List (Option FileStat)) : TotalFileStat × List OutEvent :=
  let p := mainFileLoop TotalFileStat.zero stats
  (p.1, p.2 ++ [OutEvent.total])

end Cnt

/-! ### Properties of the line splitter and the counting loop -/

theorem splitLines_flatten (l : List Nat) : (splitLines l).flatten = l := by
  induction l with
  | nil => simp [splitLines]
  | cons b rest ih =>
    by_cases hb : b = 0x0A
    · simp [splitLines, hb, ih]
    · simp only [splitLines, if_neg hb]
      cases hs : splitLines rest with
      | nil =>
        have hrest : rest = [] := by
          rw [hs] at ih
          simpa using ih.symm
        simp [hrest]
      | cons m ms =>
        rw [hs] at ih
        simp only [List.flatten_cons] at ih ⊢
        simp [ih]

theorem splitLines_eq_nil_iff (l : List Nat) : splitLines l = [] ↔ l = [] := by
  constructor
  · intro h
    have := splitLines_flatten l
    rw [h] at this
    simpa using this.symm
  · intro h
    subst h
    rfl

theorem splitLines_no_newline (l : List Nat) (hne : l ≠ []) (h : 0x0A ∉ l) :
    splitLines l = [l] := by
  induction l with
  | nil => exact absurd rfl hne
  | cons b rest ih =>
    have hb : b ≠ 0x0A := fun hb => h (hb ▸ List.mem_cons_self b rest)
    have hrest : 0x0A ∉ rest := fun hm => h (List.mem_cons_of_mem b hm)
    simp only [splitLines, if_neg hb]
    cases hr : rest with
    | nil => subst hr; rfl
    | cons c cs =>
      rw [← hr, ih (by simp [hr]) hrest]

theorem splitLines_append (p m : List Nat) (hp : p = [] ∨ p.getLast? = some 0x0A) :
    splitLines (p ++ m) = splitLines p ++ splitLines m := by
  induction p with
  | nil => simp [splitLines]
  | cons b rest ih =>
    rcases hp with hp | hp
    · cases hp
    · cases hr : rest with
      | nil =>
        subst hr
        have hb : b = 0x0A := by simpa using hp
        subst hb
        simp [splitLines]
      | cons c cs =>
        have hlast : rest.getLast? = some 0x0A := by
          rw [hr]
          rw [hr] at hp
          simpa [List.getLast?_cons_cons] using hp
        rw [← hr]
        have ihh := ih (Or.inr hlast)
        by_cases hb : b = 0x0A
        · subst hb
          simp [splitLines, ihh]
        · have hrne : rest ≠ [] := by simp [hr]
          have hsne : splitLines rest ≠ [] := by
            rw [Ne, splitLines_eq_nil_iff]
            exact hrne
          cases hs : splitLines rest with
          | nil => exact absurd hs hsne
          | cons q qs =>
            rw [hs] at ihh
            simp only [List.cons_append] at ihh ⊢
            simp [splitLines, if_neg hb, ihh, hs]

theorem fcountLoop_append_valid (stat : FileStat) (ls ms : List (List Nat))
    (h : ∀ l ∈ ls, validLine l = true) :
    fcountLoop stat (ls ++ ms) = fcountLoop (fcountLoop stat ls) ms := by
  induction ls generalizing stat with
  | nil => rfl
  | cons l rest ih =>
    have hl := h l (List.mem_cons_self l rest)
    rw [validLine] at hl
    rcases Option.isSome_iff_exists.mp hl with ⟨cs, hcs⟩
    simp only [List.cons_append, fcountLoop, hcs]
    exact ih _ fun x hx => h x (List.mem_cons_of_mem l hx)

theorem fcountLoop_bytes_valid (stat : FileStat) (ls : List (List Nat))
    (h : ∀ l ∈ ls, validLine l = true) :
    (fcountLoop stat ls).bytes = stat.bytes + (ls.map List.length).sum := by
  induction ls generalizing stat with
  | nil => simp [fcountLoop]
  | cons l rest ih =>
    have hl := h l (List.mem_cons_self l rest)
    rw [validLine] at hl
    rcases Option.isSome_iff_exists.mp hl with ⟨cs, hcs⟩
    simp only [fcountLoop, hcs]
    rw [ih _ fun x hx => h x (List.mem_cons_of_mem l hx)]
    simp only [bumpStat, List.map_cons, List.sum_cons]
    omega

theorem fcountLoop_takeWhile_valid (stat : FileStat) (ls : List (List Nat)) :
    fcountLoop stat ls = fcountLoop stat (ls.takeWhile validLine) := by
  induction ls generalizing stat with
  | nil => rfl
  | cons l rest ih =>
    cases hcs : utf8Decode l with
    | none =>
      have hv : validLine l = false := by simp [validLine, hcs]
      simp [fcountLoop, hcs, List.takeWhile_cons, hv]
    | some cs =>
      have hv : validLine l = true := by simp [validLine, hcs]
      simp [fcountLoop, hcs, List.takeWhile_cons, hv, ih]

/-! ### Properties of the driver loop, the classifier loop and the total -/

theorem processStats_done {α : Type} (upd : Lwc.Total → α → Lwc.Total)
    (hupd : ∀ t s, (upd t s).done = t.done + 1) (quiet : Bool) :
    ∀ (rs : List (Except ErrorKind α)) (t tf : Lwc.Total) (evs : List OutEvent),
      Lwc.processStats upd quiet t rs = .ok (tf, evs) →
      tf.done = t.done + rs.countP (·.isOk) := by
  intro rs
  induction rs with
  | nil =>
    intro t tf evs h
    simp only [Lwc.processStats] at h
    cases h
    simp
  | cons r rest ih =>
    intro t tf evs h
    cases r with
    | ok s =>
      simp only [Lwc.processStats] at h
      cases hrec : Lwc.processStats upd quiet (upd t s) rest with
      | error e => rw [hrec] at h; cases h
      | ok p =>
        rw [hrec] at h
        cases h
        have hd := ih (upd t s) p.1 p.2 (by rw [hrec])
        have hu := hupd t s
        have hok : ((Except.ok s : Except ErrorKind α).isOk) = true := rfl
        simp only [List.countP_cons, hok, if_true]
        omega
    | error k =>
      cases k with
      | invalidInput =>
        simp only [Lwc.processStats] at h
        cases hrec : Lwc.processStats upd quiet t rest with
        | error e => rw [hrec] at h; cases h
        | ok p =>
          rw [hrec] at h
          cases h
          have hd := ih t p.1 p.2 (by rw [hrec])
          have hok : ((Except.error ErrorKind.invalidInput : Except ErrorKind α).isOk) = false := rfl
          simp only [List.countP_cons, hok, Bool.false_eq_true, if_false]
          omega
      | os k' =>
        simp only [Lwc.processStats] at h
        cases h

theorem processStats_preserves {α β : Type} (upd : Lwc.Total → α → Lwc.Total)
    (f : Lwc.Total → β) (hupd : ∀ t s, f (upd t s) = f t) (quiet : Bool) :
    ∀ (rs : List (Except ErrorKind α)) (t tf : Lwc.Total) (evs : List OutEvent),
      Lwc.processStats upd quiet t rs = .ok (tf, evs) → f tf = f t := by
  intro rs
  induction rs with
  | nil =>
    intro t tf evs h
    simp only [Lwc.processStats] at h
    cases h
    rfl
  | cons r rest ih =>
    intro t tf evs h
    cases r with
    | ok s =>
      simp only [Lwc.processStats] at h
      cases hrec : Lwc.processStats upd quiet (upd t s) rest with
      | error e => rw [hrec] at h; cases h
      | ok p =>
        rw [hrec] at h
        cases h
        rw [ih (upd t s) p.1 p.2 (by rw [hrec])]
        exact hupd t s
    | error k =>
      cases k with
      | invalidInput =>
        simp only [Lwc.processStats] at h
        cases hrec : Lwc.processStats upd quiet t rest with
        | error e => rw [hrec] at h; cases h
        | ok p =>
          rw [hrec] at h
          cases h
          exact ih t p.1 p.2 (by rw [hrec])
      | os k' =>
        simp only [Lwc.processStats] at h
        cases h

theorem processStats_total_not_mem {α : Type} (upd : Lwc.Total → α → Lwc.Total)
    (quiet : Bool) :
    ∀ (rs : List (Except ErrorKind α)) (t tf : Lwc.Total) (evs : List OutEvent),
      Lwc.processStats upd quiet t rs = .ok (tf, evs) → OutEvent.total ∉ evs := by
  intro rs
  induction rs with
  | nil =>
    intro t tf evs h
    simp only [Lwc.processStats] at h
    cases h
    simp
  | cons r rest ih =>
    intro t tf evs h
    cases r with
    | ok s =>
      simp only [Lwc.processStats] at h
      cases hrec : Lwc.processStats upd quiet (upd t s) rest with
      | error e => rw [hrec] at h; cases h
      | ok p =>
        rw [hrec] at h
        cases h
        have hrest := ih (upd t s) p.1 p.2 (by rw [hrec])
        intro hmem
        rcases List.mem_append.mp hmem with hl | hr
        · cases hq : quiet with
          | true => rw [hq] at hl; cases hl
          | false =>
            rw [hq] at hl
            simp at hl
        · exact hrest hr
    | error k =>
      cases k with
      | invalidInput =>
        simp only [Lwc.processStats] at h
        cases hrec : Lwc.processStats upd quiet t rest with
        | error e => rw [hrec] at h; cases h
        | ok p =>
          rw [hrec] at h
          cases h
          have hrest := ih t p.1 p.2 (by rw [hrec])
          intro hmem
          rcases List.mem_cons.mp hmem with hl | hr
          · cases hl
          · exact hrest hr
      | os k' =>
        simp only [Lwc.processStats] at h
        cases h

theorem dirCountLoop_isOk_iff :
    ∀ (items : List (Option Child)) (s : Lwc.DirStat),
      (Lwc.dirCountLoop s items).isOk = true ↔
        ∀ c ∈ items, ∀ ch, c = some ch → ch.lstatType.isOk = true := by
  intro items
  induction items with
  | nil =>
    intro s
    simp [Lwc.dirCountLoop, Except.isOk, Except.toBool]
  | cons c rest ih =>
    intro s
    cases c with
    | none =>
      simp only [Lwc.dirCountLoop, ih]
      constructor
      · intro h x hx ch hch
        rcases List.mem_cons.mp hx with hl | hr
        · rw [hl] at hch; cases hch
        · exact h x hr ch hch
      · intro h x hx ch hch
        exact h x (List.mem_cons_of_mem _ hx) ch hch
    | some ch0 =>
      cases hl : ch0.lstatType with
      | error k =>
        simp only [Lwc.dirCountLoop, hl]
        constructor
        · intro h; cases h
        · intro h
          have := h (some ch0) (List.mem_cons_self _ _) ch0 rfl
          rw [hl] at this
          cases this
      | ok ft =>
        simp only [Lwc.dirCountLoop, hl, ih]
        constructor
        · intro h x hx ch hch
          rcases List.mem_cons.mp hx with hx' | hx'
          · rw [hx'] at hch
            cases hch
            rw [hl]
            rfl
          · exact h x hx' ch hch
        · intro h x hx ch hch
          exact h x (List.mem_cons_of_mem _ hx) ch hch

theorem dirCountLoop_skip_none :
    ∀ (items : List (Option Child)) (s : Lwc.DirStat),
      Lwc.dirCountLoop s items = Lwc.dirCountLoop s ((items.filterMap id).map some) := by
  intro items
  induction items with
  | nil => intro s; rfl
  | cons c rest ih =>
    intro s
    cases c with
    | none =>
      have hf : List.filterMap id (none :: rest) = List.filterMap id rest := by simp
      rw [hf]
      simp only [Lwc.dirCountLoop, ih]
    | some ch0 =>
      cases hl : ch0.lstatType with
      | error k =>
        simp only [List.filterMap_cons_some, List.map_cons, Lwc.dirCountLoop, hl]
      | ok ft =>
        simp only [List.filterMap_cons_some, List.map_cons, Lwc.dirCountLoop, hl, ih]

theorem Lwc.bucketSum_classifyEntry (s : Lwc.DirStat) (ft : FileType) :
    Lwc.bucketSum (Lwc.classifyEntry s ft) = Lwc.bucketSum s + 1 := by
  cases ft <;> simp [Lwc.bucketSum, Lwc.classifyEntry] <;> omega

theorem dirCountLoop_bucketSum :
    ∀ (items : List (Option Child)) (s0 s : Lwc.DirStat),
      Lwc.dirCountLoop s0 items = .ok s →
      Lwc.bucketSum s = Lwc.bucketSum s0 + items.countP (·.isSome) := by
  intro items
  induction items with
  | nil =>
    intro s0 s h
    simp only [Lwc.dirCountLoop] at h
    cases h
    simp
  | cons c rest ih =>
    intro s0 s h
    cases c with
    | none =>
      simp only [Lwc.dirCountLoop] at h
      have := ih s0 s h
      have hns : ((none : Option Child).isSome) = false := rfl
      simp only [List.countP_cons, hns, Bool.false_eq_true, if_false]
      omega
    | some ch0 =>
      cases hl : ch0.lstatType with
      | error k =>
        simp only [Lwc.dirCountLoop, hl] at h
        cases h
      | ok ft =>
        simp only [Lwc.dirCountLoop, hl] at h
        have := ih _ s h
        have hss : ((some ch0 : Option Child).isSome) = true := rfl
        simp only [List.countP_cons, hss, if_true]
        rw [this, Lwc.bucketSum_classifyEntry]
        omega

theorem foldl_update_file_eq (l : List FileStat) (t : Lwc.Total) :
    l.foldl Lwc.Total.update_file t =
      ⟨⟨t.file.lines + (l.map FileStat.lines).sum,
        t.file.words + (l.map FileStat.words).sum,
        t.file.chars + (l.map FileStat.chars).sum,
        t.file.bytes + (l.map FileStat.bytes).sum⟩,
        t.dir, t.done + l.length⟩ := by
  induction l generalizing t with
  | nil => simp
  | cons s rest ih =>
    simp only [List.foldl_cons, ih, List.map_cons, List.sum_cons, List.length_cons]
    simp only [Lwc.Total.update_file, Lwc.Total.mk.injEq, FileStat.mk.injEq]
    refine ⟨⟨?_, ?_, ?_, ?_⟩, trivial, ?_⟩ <;> omega

theorem foldl_update_dir_eq (l : List Lwc.DirStat) (t : Lwc.Total) :
    l.foldl Lwc.Total.update_dir t =
      ⟨t.file,
        ⟨t.dir.subdirs + (l.map Lwc.DirStat.subdirs).sum,
          t.dir.files + (l.map Lwc.DirStat.files).sum,
          t.dir.symlinks + (l.map Lwc.DirStat.symlinks).sum,
          t.dir.blocks + (l.map Lwc.DirStat.blocks).sum,
          t.dir.chars + (l.map Lwc.DirStat.chars).sum,
          t.dir.fifos + (l.map Lwc.DirStat.fifos).sum,
          t.dir.sockets + (l.map Lwc.DirStat.sockets).sum,
          t.dir.symlink_files, t.dir.symlink_dirs⟩,
        t.done + l.length⟩ := by
  induction l generalizing t with
  | nil => simp
  | cons s rest ih =>
    simp only [List.foldl_cons, ih, List.map_cons, List.sum_cons, List.length_cons]
    simp only [Lwc.Total.update_dir, Lwc.Total.mk.injEq, Lwc.DirStat.mk.injEq]
    refine ⟨trivial, ⟨?_, ?_, ?_, ?_, ?_, ?_, ?_, trivial, trivial⟩, ?_⟩ <;> omega

theorem totalGuard_iff (n : Nat) (quiet : Bool) :
    (decide (n > 1) || (quiet && decide (n > 1))) = true ↔ 2 ≤ n := by
  cases quiet <;> simp <;> omega

/-! ### Claim theorems -/

/-- Claim C1, counterexample: on the one-byte stream `[0xFF]` (invalid
UTF-8), `read_line` fails, the `while let Ok` loop exits before scoring
anything, and the reported byte count is 0 while the stream has length 1 —
so `bytes(FileStat) == len(S)` does not hold for all streams. -/
theorem bytes_roundtrip_fails_on_invalid_utf8 :
    (countStream [0xFF]).bytes ≠ ([0xFF] : List Nat).length := by
  decide

/-- Claim C1, amended: for every byte stream all of whose `read_line`
chunks are valid UTF-8, the Stream Counter's `bytes` field equals the
exact byte length of the stream. -/
theorem stream_bytes_eq_length_of_valid_lines (S : List Nat)
    (h : ∀ l ∈ splitLines S, validLine l = true) :
    (countStream S).bytes = S.length := by
  rw [countStream, fcountLoop_bytes_valid FileStat.zero (splitLines S) h]
  have hflat := splitLines_flatten S
  have hlen : ((splitLines S).flatten).length = (List.map List.length (splitLines S)).sum :=
    List.length_flatten (splitLines S)
  rw [hflat] at hlen
  rw [← hlen]
  simp [FileStat.zero]

/-- Witness for C1's amended theorem at the stream "a\n". -/
theorem stream_bytes_eq_length_of_valid_lines_witness :
    (countStream [97, 10]).bytes = ([97, 10] : List Nat).length :=
  stream_bytes_eq_length_of_valid_lines [97, 10] (by decide)

/-- Claim C2: a final line with no trailing newline is still counted
fully.  For any stream `p` of complete valid lines followed by a
nonempty, newline-free, valid-UTF-8 final chunk `last`, the counts are
those of `p` plus one line, the words and scalar count of `last`, and the
raw byte length of `last`. -/
theorem final_line_without_newline_counted (p last cs : List Nat)
    (hp : p = [] ∨ p.getLast? = some 0x0A)
    (hv : ∀ l ∈ splitLines p, validLine l = true)
    (hne : last ≠ []) (hnl : 0x0A ∉ last)
    (hdec : utf8Decode last = some cs) :
    countStream (p ++ last) =
      ⟨(countStream p).lines + 1, (countStream p).words + wordCount cs,
        (countStream p).chars + cs.length, (countStream p).bytes + last.length⟩ := by
  rw [countStream, countStream,
    splitLines_append p last hp, splitLines_no_newline last hne hnl,
    fcountLoop_append_valid _ _ _ hv]
  simp [fcountLoop, hdec, bumpStat]

/-- Witness for C2 at the claim's own example: the 11-byte stream
"hello world" with no newline yields lines 1, words 2, chars 11, bytes 11. -/
theorem final_line_without_newline_counted_witness :
    countStream [104, 101, 108, 108, 111, 32, 119, 111, 114, 108, 100] =
      ⟨1, 2, 11, 11⟩ := by
  have h := final_line_without_newline_counted []
    [104, 101, 108, 108, 111, 32, 119, 111, 114, 108, 100]
    [104, 101, 108, 108, 111, 32, 119, 111, 114, 108, 100]
    (Or.inl rfl) (by decide) (by decide) (by decide) (by decide)
  exact h.trans (by decide)

/-- Claim C3: folding any permutation of a finite list of `FileStat`s
(or of `DirStat`s) into a total yields the same final `Total`, field
values and `done` count included — the fold is commutative and
associative. -/
theorem total_fold_perm_invariant (l1 l2 : List FileStat)
    (d1 d2 : List Lwc.DirStat) (t : Lwc.Total)
    (hf : l1.Perm l2) (hd : d1.Perm d2) :
    l1.foldl Lwc.Total.update_file t = l2.foldl Lwc.Total.update_file t ∧
    d1.foldl Lwc.Total.update_dir t = d2.foldl Lwc.Total.update_dir t := by
  constructor
  · rw [foldl_update_file_eq, foldl_update_file_eq,
      (hf.map FileStat.lines).sum_eq, (hf.map FileStat.words).sum_eq,
      (hf.map FileStat.chars).sum_eq, (hf.map FileStat.bytes).sum_eq,
      hf.length_eq]
  · rw [foldl_update_dir_eq, foldl_update_dir_eq,
      (hd.map Lwc.DirStat.subdirs).sum_eq, (hd.map Lwc.DirStat.files).sum_eq,
      (hd.map Lwc.DirStat.symlinks).sum_eq, (hd.map Lwc.DirStat.blocks).sum_eq,
      (hd.map Lwc.DirStat.chars).sum_eq, (hd.map Lwc.DirStat.fifos).sum_eq,
      (hd.map Lwc.DirStat.sockets).sum_eq, hd.length_eq]

/-- Witness for C3 on a concrete two-element permutation. -/
theorem total_fold_perm_invariant_witness :
    [(⟨1, 2, 3, 4⟩ : FileStat), ⟨5, 6, 7, 8⟩].foldl Lwc.Total.update_file Lwc.Total.new =
      [(⟨5, 6, 7, 8⟩ : FileStat), ⟨1, 2, 3, 4⟩].foldl Lwc.Total.update_file Lwc.Total.new ∧
    [(⟨1, 0, 2, 0, 0, 0, 0, 0, 0⟩ : Lwc.DirStat), ⟨0, 3, 0, 0, 0, 0, 0, 0, 0⟩].foldl
        Lwc.Total.update_dir Lwc.Total.new =
      [(⟨0, 3, 0, 0, 0, 0, 0, 0, 0⟩ : Lwc.DirStat), ⟨1, 0, 2, 0, 0, 0, 0, 0, 0⟩].foldl
        Lwc.Total.update_dir Lwc.Total.new :=
  total_fold_perm_invariant _ _ _ _ Lwc.Total.new (by decide) (by decide)

/-- Claim C4, counterexample: a directory whose listing enumerates fine
but whose single yielded child has unresolvable metadata.  The claim says
the child is skipped and classification still succeeds; instead
`Dir::count` propagates the child's metadata error (`?`) and
`Counter::dcount` aborts with `None` (`ok()?`). -/
theorem dir_count_fails_on_child_metadata_failure :
    (Lwc.Dir.count ⟨Except.ok true,
      Except.ok [some ⟨Except.error IOFailure.permissionDenied,
        Except.error IOFailure.permissionDenied⟩]⟩).isOk = false ∧
    Cnt.dcount ⟨Except.ok true,
      Except.ok [some ⟨Except.error IOFailure.permissionDenied,
        Except.error IOFailure.permissionDenied⟩]⟩ = none := by
  decide

/-- Claim C4, amended: for a directory that can be opened and enumerated,
`Dir::count` succeeds iff the metadata of every child the iterator yields
can be resolved; only children the directory iterator itself fails to
yield (dropped by `.flatten()`) are skipped without affecting the result. -/
theorem dir_count_ok_iff_all_children_resolve (d : DirListing)
    (items : List (Option Child)) (h1 : d.isDirMeta = .ok true)
    (h2 : d.children = .ok items) :
    ((Lwc.Dir.count d).isOk = true ↔
      ∀ c ∈ items, ∀ ch, c = some ch → ch.lstatType.isOk = true) ∧
    Lwc.Dir.count d =
      Lwc.Dir.count ⟨Except.ok true, Except.ok ((items.filterMap id).map some)⟩ := by
  obtain ⟨dm, dc⟩ := d
  cases h1
  cases h2
  have hred : Lwc.Dir.count ⟨Except.ok true, Except.ok items⟩ =
      Lwc.dirCountLoop Lwc.DirStat.zero items := rfl
  have hred2 : Lwc.Dir.count ⟨Except.ok true, Except.ok ((items.filterMap id).map some)⟩ =
      Lwc.dirCountLoop Lwc.DirStat.zero ((items.filterMap id).map some) := rfl
  constructor
  · rw [hred]
    exact dirCountLoop_isOk_iff items Lwc.DirStat.zero
  · rw [hred, hred2]
    exact dirCountLoop_skip_none items Lwc.DirStat.zero

/-- Witness for C4's amended theorem: an iterator-dropped child plus one
resolvable child still classify successfully. -/
theorem dir_count_ok_iff_all_children_resolve_witness :
    (Lwc.Dir.count ⟨Except.ok true,
      Except.ok [none, some ⟨Except.ok FileType.file, Except.ok FileType.file⟩]⟩).isOk = true :=
  ((dir_count_ok_iff_all_children_resolve _
    [none, some ⟨Except.ok FileType.file, Except.ok FileType.file⟩] rfl rfl).1).mpr
    (by decide)

/-- Claim C5 (code bug): on a directory whose single child is a symbolic
link pointing to a regular file, `Counter::dcount` — which resolves
children with the symlink-following `metadata()` call, leaving its
`is_symlink` match arm unreachable — buckets the child as a regular file,
while `Dir::count` — which uses `symlink_metadata()` — buckets the same
child as a symlink as the claim requires. -/
theorem dcount_follows_symlink_target :
    Cnt.dcount ⟨Except.ok true,
      Except.ok [some ⟨Except.ok FileType.symlink, Except.ok FileType.file⟩]⟩ =
      some ⟨0, 1, 0, 0, 0, 0, 0⟩ ∧
    Lwc.Dir.count ⟨Except.ok true,
      Except.ok [some ⟨Except.ok FileType.symlink, Except.ok FileType.file⟩]⟩ =
      Except.ok ⟨0, 0, 1, 0, 0, 0, 0, 0, 0⟩ := by
  decide

/-- Claim C6: a mode/type mismatch yields an `InvalidInput` error from the
stat producers (`File::count` on a non-regular-file, `Dir::count` on a
non-directory); the driver loop treats exactly that kind as non-fatal —
it prints a warning and processes the remaining results identically —
while any other I/O failure kind aborts the whole run with that error. -/
theorem invalid_input_nonfatal_other_errors_fatal (e : FileEntry) (m : FileMeta)
    (d : DirListing) (quiet : Bool) (rs : List (Except ErrorKind FileStat))
    (k : IOFailure) (h1 : e.meta = .ok m) (h2 : m.isFile = false)
    (h3 : d.isDirMeta = .ok false) :
    Lwc.File.count e = .error .invalidInput ∧
    Lwc.Dir.count d = .error .invalidInput ∧
    Lwc.count_file quiet (.error .invalidInput :: rs) =
      (match Lwc.count_file quiet rs with
        | .error er => .error er
        | .ok (t, evs) => .ok (t, OutEvent.warn :: evs)) ∧
    Lwc.count_file quiet (.error (.os k) :: rs) = .error (.os k) := by
  refine ⟨?_, ?_, ?_, ?_⟩
  · obtain ⟨em, eo⟩ := e
    cases h1
    simp [Lwc.File.count, h2]
  · obtain ⟨dm, dc⟩ := d
    cases h3
    simp [Lwc.Dir.count]
  · unfold Lwc.count_file
    simp only [Lwc.processStats]
    cases hrec : Lwc.processStats Lwc.Total.update_file quiet Lwc.Total.new rs with
    | error e2 => simp [hrec]
    | ok p => simp [hrec]
  · rfl

/-- Witness for C6: a non-regular-file entry is rejected with
`InvalidInput`, and a `NotFound` result aborts the run with that error. -/
theorem invalid_input_nonfatal_other_errors_fatal_witness :
    Lwc.File.count ⟨Except.ok ⟨false⟩, Except.ok []⟩ =
      Except.error ErrorKind.invalidInput ∧
    Lwc.count_file false [Except.error (ErrorKind.os IOFailure.notFound)] =
      Except.error (ErrorKind.os IOFailure.notFound) := by
  have h := invalid_input_nonfatal_other_errors_fatal
    ⟨Except.ok ⟨false⟩, Except.ok []⟩ ⟨false⟩ ⟨Except.ok false, Except.ok []⟩
    false [] IOFailure.notFound rfl rfl rfl
  exact ⟨h.1, h.2.2.2⟩

/-- Membership of the total line in the guarded tail that
`count_file`/`count_dir` append: present exactly when `done` is at least
two, whatever `quiet` is. -/
theorem mem_total_guard (n : Nat) (quiet : Bool) :
    (OutEvent.total ∈
      if n > 1 || (quiet && n > 1) then [OutEvent.total] else ([] : List OutEvent)) ↔
      2 ≤ n := by
  cases quiet <;> by_cases h2 : n > 1 <;> simp [h2] <;> omega

/-- Claim C7, counterexample: the `main.rs` driver prints its total line
unconditionally, so a run that successfully processed exactly one entry
still gets a total line, contradicting "suppressed when zero or one entry
was counted". -/
theorem main_prints_total_with_single_entry :
    (Cnt.mainFileRun [some ⟨1, 1, 2, 2⟩]).2 = [OutEvent.entry, OutEvent.total] ∧
    List.countP (fun s => s.isSome) [some (⟨1, 1, 2, 2⟩ : FileStat)] = 1 := by
  decide

/-- Claim C7, amended: in the `Counter::count_file` driver of `src/lwc.rs`
the aggregated total line is printed iff at least two entries were
successfully processed, regardless of the quiet flag; the `src/main.rs`
driver instead prints its total line on every run. -/
theorem count_file_total_iff_two_successes (quiet : Bool)
    (rs : List (Except ErrorKind FileStat)) (t : Lwc.Total)
    (out : List OutEvent) (stats : List (Option FileStat))
    (h : Lwc.count_file quiet rs = .ok (t, out)) :
    (OutEvent.total ∈ out ↔ 2 ≤ rs.countP (·.isOk)) ∧
    OutEvent.total ∈ (Cnt.mainFileRun stats).2 := by
  constructor
  · unfold Lwc.count_file at h
    cases hrec : Lwc.processStats Lwc.Total.update_file quiet Lwc.Total.new rs with
    | error e => rw [hrec] at h; cases h
    | ok p =>
      rw [hrec] at h
      cases h
      have hdone := processStats_done Lwc.Total.update_file (fun t s => rfl) quiet rs
        Lwc.Total.new p.1 p.2 (by rw [hrec])
      have hnm := processStats_total_not_mem Lwc.Total.update_file quiet rs
        Lwc.Total.new p.1 p.2 (by rw [hrec])
      have hnew : Lwc.Total.new.done = 0 := rfl
      rw [hnew] at hdone
      constructor
      · intro hmem
        rcases List.mem_append.mp hmem with hl | hr
        · exact absurd hl hnm
        · have := (mem_total_guard p.1.done quiet).mp hr
          omega
      · intro hcount
        refine List.mem_append.mpr (Or.inr ?_)
        exact (mem_total_guard p.1.done quiet).mpr (by omega)
  · simp [Cnt.mainFileRun]

/-- Witness for C7's amended theorem: two successful entries make the
total line appear. -/
theorem count_file_total_iff_two_successes_witness :
    OutEvent.total ∈ [OutEvent.entry, OutEvent.entry, OutEvent.total] := by
  have h := count_file_total_iff_two_successes false
    [Except.ok ⟨1, 1, 1, 1⟩, Except.ok ⟨2, 2, 2, 2⟩]
    ⟨⟨3, 3, 3, 3⟩, Lwc.DirStat.zero, 2⟩
    [OutEvent.entry, OutEvent.entry, OutEvent.total] [] (by decide)
  exact (h.1).mpr (by decide)

/-- Claim C8: when `Dir::count` succeeds, every yielded child with
resolved metadata lands in exactly one bucket, so the sum of all bucket
counts equals the number of children the iterator yielded. -/
theorem dir_buckets_partition_resolved_children (d : DirListing)
    (items : List (Option Child)) (s : Lwc.DirStat)
    (h1 : d.children = .ok items) (h2 : Lwc.Dir.count d = .ok s) :
    Lwc.bucketSum s = items.countP (·.isSome) := by
  obtain ⟨dm, dc⟩ := d
  cases h1
  cases dm with
  | error k => simp [Lwc.Dir.count] at h2
  | ok isDir =>
    cases isDir with
    | false => simp [Lwc.Dir.count] at h2
    | true =>
      have hred : Lwc.Dir.count ⟨Except.ok true, Except.ok items⟩ =
          Lwc.dirCountLoop Lwc.DirStat.zero items := rfl
      rw [hred] at h2
      have hsum := dirCountLoop_bucketSum items Lwc.DirStat.zero s h2
      simpa [Lwc.bucketSum, Lwc.DirStat.zero] using hsum

/-- Witness for C8 at the claim's own example: one subdirectory, two
regular files and one symlink give buckets 1/2/1 with all other buckets
zero, summing to the four resolved children. -/
theorem dir_buckets_partition_resolved_children_witness :
    Lwc.bucketSum ⟨1, 2, 1, 0, 0, 0, 0, 0, 0⟩ =
      List.countP (fun c => c.isSome)
        [some (⟨Except.ok FileType.dir, Except.ok FileType.dir⟩ : Child),
          some ⟨Except.ok FileType.file, Except.ok FileType.file⟩,
          some ⟨Except.ok FileType.file, Except.ok FileType.file⟩,
          some ⟨Except.ok FileType.symlink, Except.ok FileType.file⟩] :=
  dir_buckets_partition_resolved_children
    ⟨Except.ok true, Except.ok
      [some ⟨Except.ok FileType.dir, Except.ok FileType.dir⟩,
        some ⟨Except.ok FileType.file, Except.ok FileType.file⟩,
        some ⟨Except.ok FileType.file, Except.ok FileType.file⟩,
        some ⟨Except.ok FileType.symlink, Except.ok FileType.file⟩]⟩
    _ ⟨1, 2, 1, 0, 0, 0, 0, 0, 0⟩ rfl (by decide)

/-- Claim C9: a run's total never mixes the two shapes.  `update_file`
leaves the dir-shaped half of a `Total` untouched and `update_dir` leaves
the file-shaped half untouched, so a `count_file` run ends with its dir
half still all-zero and a `count_dir` run ends with its file half still
all-zero. -/
theorem total_shapes_never_mix (t : Lwc.Total) (s : FileStat)
    (ds : Lwc.DirStat) (quiet : Bool)
    (rsF : List (Except ErrorKind FileStat))
    (rsD : List (Except ErrorKind Lwc.DirStat)) (tF tD : Lwc.Total)
    (evF evD : List OutEvent)
    (hF : Lwc.count_file quiet rsF = .ok (tF, evF))
    (hD : Lwc.count_dir quiet rsD = .ok (tD, evD)) :
    (Lwc.Total.update_file t s).dir = t.dir ∧
    (Lwc.Total.update_dir t ds).file = t.file ∧
    tF.dir = Lwc.DirStat.zero ∧ tD.file = FileStat.zero := by
  refine ⟨rfl, rfl, ?_, ?_⟩
  · unfold Lwc.count_file at hF
    cases hrec : Lwc.processStats Lwc.Total.update_file quiet Lwc.Total.new rsF with
    | error e => rw [hrec] at hF; cases hF
    | ok p =>
      rw [hrec] at hF
      cases hF
      exact processStats_preserves Lwc.Total.update_file Lwc.Total.dir
        (fun t s => rfl) quiet rsF Lwc.Total.new p.1 p.2 (by rw [hrec])
  · unfold Lwc.count_dir at hD
    cases hrec : Lwc.processStats Lwc.Total.update_dir quiet Lwc.Total.new rsD with
    | error e => rw [hrec] at hD; cases hD
    | ok p =>
      rw [hrec] at hD
      cases hD
      exact processStats_preserves Lwc.Total.update_dir Lwc.Total.file
        (fun t s => rfl) quiet rsD Lwc.Total.new p.1 p.2 (by rw [hrec])

/-- Witness for C9 on one-entry file and dir runs. -/
theorem total_shapes_never_mix_witness :
    (⟨⟨1, 1, 1, 1⟩, Lwc.DirStat.zero, 1⟩ : Lwc.Total).dir = Lwc.DirStat.zero := by
  have h := total_shapes_never_mix Lwc.Total.new ⟨1, 1, 1, 1⟩ Lwc.DirStat.zero false
    [Except.ok ⟨1, 1, 1, 1⟩] [Except.ok Lwc.DirStat.zero]
    ⟨⟨1, 1, 1, 1⟩, Lwc.DirStat.zero, 1⟩ ⟨FileStat.zero, Lwc.DirStat.zero, 1⟩
    [OutEvent.entry] [OutEvent.entry] (by decide) (by decide)
  exact h.2.2.1

/-- Claim C10: the counting loop never surfaces a decode error.  Whenever
the path is a regular file that opens, `File::count` (and `fcount`)
return success, carrying exactly the counts of the longest prefix of
`read_line` chunks that are valid UTF-8 — the rest of the stream goes
uncounted. -/
theorem stream_counter_never_fails (e : FileEntry) (bytes : List Nat)
    (h1 : e.meta = .ok ⟨true⟩) (h2 : e.openRes = .ok bytes) :
    Lwc.File.count e =
      .ok (fcountLoop FileStat.zero ((splitLines bytes).takeWhile validLine)) ∧
    Cnt.fcount e =
      some (fcountLoop FileStat.zero ((splitLines bytes).takeWhile validLine)) := by
  obtain ⟨em, eo⟩ := e
  cases h1
  cases h2
  have hcs : countStream bytes =
      fcountLoop FileStat.zero ((splitLines bytes).takeWhile validLine) :=
    fcountLoop_takeWhile_valid FileStat.zero (splitLines bytes)
  exact ⟨congrArg Except.ok hcs, congrArg some hcs⟩

/-- Witness for C10: a stream whose second line is invalid UTF-8 still
returns success, counting only the first line. -/
theorem stream_counter_never_fails_witness :
    Lwc.File.count ⟨Except.ok ⟨true⟩, Except.ok [104, 105, 10, 255]⟩ =
      Except.ok ⟨1, 1, 3, 3⟩ := by
  have h := (stream_counter_never_fails
    ⟨Except.ok ⟨true⟩, Except.ok [104, 105, 10, 255]⟩ [104, 105, 10, 255] rfl rfl).1
  exact h.trans (by decide)
